import Mathlib

/-!
Verification development for the Python process manager of the
VSC-Variable-Explorer repository (src/pythonManager.js, plus the unnamed
start-variant fragment src/unnamed/part_000).  Byte/text data is modelled
as `List Char`; the stateful class `PythonManager` is modelled as a state
record with explicit event-handler functions returning the new state and
the list of observable effects.
-/

namespace VariableExplorer

/-! ### Stream framer (src/pythonManager.js lines 88-112)

The stdout handler appends each chunk to `outputBuffer`, then repeatedly
extracts the prefix up to the next `this.outputBuffer.indexOf('\n')`,
trims it, drops it from the buffer, and yields it when nonempty.  The
while loop is rendered as the structurally recursive scan `frameGo`,
which walks the buffer character by character carrying the characters
seen since the last newline (`cur`); hitting a newline corresponds to one
iteration of the source loop. -/

/-- Whitespace recognizer for the framer's trim, modelling the ASCII range of
JavaScript String.prototype.trim (space, tab, newline, carriage return,
vertical tab, form feed). -/
def isSpaceChar (c : Char) : Bool :=
  c == ' ' || c == '\t' || c == '\n' || c == '\r' || c == Char.ofNat 11 || c == Char.ofNat 12

/-- Model of JavaScript String.prototype.trim: remove leading and trailing
whitespace. -/
def trim (s : List Char) : List Char :=
  ((s.dropWhile isSpaceChar).reverse.dropWhile isSpaceChar).reverse

/-- One pass of the source's line-extraction while loop.  `cur` holds the
characters scanned since the last newline; on a newline the trimmed
pending line is yielded when nonempty (the source's `line.length > 0`
check); the second component is the unconsumed buffer remainder. -/
def frameGo : List Char → List Char → List (List Char) × List Char
  | cur, [] => ([], cur)
  | cur, c :: cs =>
    if c = '\n' then
      (if trim cur = [] then (frameGo [] cs).1 else trim cur :: (frameGo [] cs).1,
       (frameGo [] cs).2)
    else
      frameGo (cur ++ [c]) cs

/-- Run the extraction loop on a whole buffer. -/
def frame (buf : List Char) : List (List Char) × List Char :=
  frameGo [] buf

/-- One stdout 'data' event on the framing state alone: append the chunk to
the buffer and run the extraction loop (lines 90-96). -/
def feed (buffer chunk : List Char) : List (List Char) × List Char :=
  frame (buffer ++ chunk)

/-- Feed a sequence of chunks; first component collects all yielded lines in
order, second component is the final buffer. -/
def feedMany : List Char → List (List Char) → List (List Char) × List Char
  | buffer, [] => ([], buffer)
  | buffer, c :: cs =>
    ((feed buffer c).1 ++ (feedMany (feed buffer c).2 cs).1,
     (feedMany (feed buffer c).2 cs).2)

/-- Suffix of a character list strictly after its last newline (the whole
list when it has no newline). -/
def afterLastNL : List Char → List Char
  | [] => []
  | c :: cs =>
    if '\n' ∈ cs then afterLastNL cs
    else if c = '\n' then cs
    else c :: cs

/-- Prefix of a character list up to and including its last newline (empty
when it has no newline). -/
def upToLastNL : List Char → List Char
  | [] => []
  | c :: cs =>
    if '\n' ∈ cs then c :: upToLastNL cs
    else if c = '\n' then ['\n']
    else []

/-! ### POSIX path model

The source uses Node's `path` module (`path.join`, `path.isAbsolute`,
`path.delimiter`).  These platform functions are modelled for the POSIX
platform: join concatenates with a slash and normalizes away empty, dot
and dot-dot segments; the path-list delimiter is a colon.  Trailing-slash
preservation and Windows semantics are elided (no claim depends on
them). -/

/-- Opening curly brace character, kept as a named constant. -/
def lbrace : Char := Char.ofNat 123

/-- Closing curly brace character, kept as a named constant. -/
def rbrace : Char := Char.ofNat 125

/-- Double-quote character, kept as a named constant. -/
def dq : Char := Char.ofNat 34

/-- Model of path.isAbsolute on POSIX: the path starts with a slash. -/
def isAbsolutePath (p : List Char) : Bool :=
  match p with
  | '/' :: _ => true
  | _ => false

/-- Split a character list on slashes (segments may be empty). -/
def splitSlash : List Char → List (List Char)
  | [] => [[]]
  | c :: cs =>
    if c = '/' then [] :: splitSlash cs
    else
      match splitSlash cs with
      | [] => [[c]]
      | h :: t => (c :: h) :: t

/-- Segment consisting of one dot. -/
def singleDot : List Char := ['.']

/-- Segment consisting of two dots. -/
def dotDot : List Char := ['.', '.']

/-- Resolve dot-dot segments against a stack of already-kept segments,
as Node path normalization does; `ab` records whether the path is
absolute (a dot-dot at the root of an absolute path is dropped). -/
def processDots (ab : Bool) : List (List Char) → List (List Char) → List (List Char)
  | stack, [] => stack.reverse
  | stack, seg :: rest =>
    if seg = dotDot then
      match stack with
      | [] => if ab then processDots ab [] rest else processDots ab [seg] rest
      | top :: stk2 =>
        if top = dotDot then processDots ab (seg :: stack) rest
        else processDots ab stk2 rest
    else processDots ab (seg :: stack) rest

/-- Interleave a separator character between list entries. -/
def intercalateChar (sep : Char) : List (List Char) → List Char
  | [] => []
  | [p] => p
  | p :: q :: ps => p ++ sep :: intercalateChar sep (q :: ps)

/-- Model of Node path.posix.normalize: drop empty and single-dot segments,
resolve dot-dot segments, rejoin with slashes. -/
def normalizePath (p : List Char) : List Char :=
  let ab := isAbsolutePath p
  let segs := (splitSlash p).filter (fun s => !s.isEmpty && !(s == singleDot))
  let segs2 := processDots ab [] segs
  let body := intercalateChar '/' segs2
  if ab then '/' :: body
  else if body = [] then ['.'] else body

/-- Model of Node path.posix.join restricted to two arguments, as used by
the source. -/
def pathJoin (a b : List Char) : List Char :=
  if a.isEmpty && b.isEmpty then ['.']
  else if a.isEmpty then normalizePath b
  else if b.isEmpty then normalizePath a
  else normalizePath (a ++ '/' :: b)

/-- Model of path.delimiter on POSIX. -/
def posixDelimiter : Char := ':'

/-! ### JSON values (wire protocol)

Modelled from the spec: the platform functions JSON.parse and
JSON.stringify used by the stdout handler (line 100) and sendCommand
(line 147) are not repository code; they are modelled here by an
executable recursive-descent parser and serializer over a JSON value
type.  Numeric literals are restricted to integers and string escapes
to the common single-character escapes (no claim involves fractional
numbers or unicode escapes). -/

mutual
inductive JValue : Type where
  | jnull : JValue
  | jbool : Bool → JValue
  | jnum : Int → JValue
  | jstr : List Char → JValue
  | jarr : JItems → JValue
  | jobj : JFields → JValue
inductive JItems : Type where
  | nil : JItems
  | cons : JValue → JItems → JItems
inductive JFields : Type where
  | fnil : JFields
  | fcons : List Char → JValue → JFields → JFields
end

/-- JSON insignificant whitespace. -/
def jsonWS (c : Char) : Bool :=
  c == ' ' || c == '\t' || c == '\n' || c == '\r'

/-- Skip insignificant whitespace. -/
def skipWS (s : List Char) : List Char :=
  s.dropWhile jsonWS

/-- Decimal digit value of a character, if any. -/
def digitVal (c : Char) : Option Nat :=
  if 48 ≤ c.toNat ∧ c.toNat ≤ 57 then some (c.toNat - 48) else none

/-- Consume a run of decimal digits, accumulating their value. -/
def readDigits : List Char → Nat → Nat × List Char
  | [], acc => (acc, [])
  | c :: cs, acc =>
    match digitVal c with
    | some d => readDigits cs (acc * 10 + d)
    | none => (acc, c :: cs)

/-- Single-character string escapes accepted after a backslash. -/
def escMap (c : Char) : Option Char :=
  if c = dq then some dq
  else if c = '\\' then some '\\'
  else if c = '/' then some '/'
  else if c = 'n' then some '\n'
  else if c = 't' then some '\t'
  else if c = 'r' then some '\r'
  else if c = 'b' then some (Char.ofNat 8)
  else if c = 'f' then some (Char.ofNat 12)
  else none

/-- Parse the remainder of a JSON string after its opening quote. -/
def readStringRest : List Char → Option (List Char × List Char)
  | [] => none
  | c :: cs =>
    if c = dq then some ([], cs)
    else if c = '\\' then
      match cs with
      | [] => none
      | e :: cs2 =>
        match escMap e with
        | some ch =>
          match readStringRest cs2 with
          | some sr => some (ch :: sr.1, sr.2)
          | none => none
        | none => none
    else if c.toNat < 32 then none
    else
      match readStringRest cs with
      | some sr => some (c :: sr.1, sr.2)
      | none => none

mutual
/-- Parse one JSON value; fuel bounds the recursion depth. -/
def parseVal : Nat → List Char → Option (JValue × List Char)
  | 0, _ => none
  | Nat.succ fuel, s =>
    match skipWS s with
    | [] => none
    | c :: r =>
      if c = dq then
        match readStringRest r with
        | some sr => some (JValue.jstr sr.1, sr.2)
        | none => none
      else if c = lbrace then parseObjBody fuel r
      else if c = '[' then
        match skipWS r with
        | ']' :: r2 => some (JValue.jarr JItems.nil, r2)
        | _ =>
          match parseItems fuel r with
          | some ir => some (JValue.jarr ir.1, ir.2)
          | none => none
      else if c = '-' then
        match r with
        | d :: _ =>
          if (digitVal d).isSome then
            some (JValue.jnum (-(Int.ofNat (readDigits r 0).1)), (readDigits r 0).2)
          else none
        | [] => none
      else if (digitVal c).isSome then
        some (JValue.jnum (Int.ofNat (readDigits (c :: r) 0).1), (readDigits (c :: r) 0).2)
      else
        match c :: r with
        | 'n' :: 'u' :: 'l' :: 'l' :: rest => some (JValue.jnull, rest)
        | 't' :: 'r' :: 'u' :: 'e' :: rest => some (JValue.jbool true, rest)
        | 'f' :: 'a' :: 'l' :: 's' :: 'e' :: rest => some (JValue.jbool false, rest)
        | _ => none

/-- Parse an object body (input starts just after the opening brace). -/
def parseObjBody : Nat → List Char → Option (JValue × List Char)
  | 0, _ => none
  | Nat.succ fuel, s =>
    match skipWS s with
    | [] => none
    | c :: r =>
      if c = rbrace then some (JValue.jobj JFields.fnil, r)
      else
        match parseFields fuel s with
        | some fr => some (JValue.jobj fr.1, fr.2)
        | none => none

/-- Parse one or more comma-separated key/value pairs followed by the
closing brace. -/
def parseFields : Nat → List Char → Option (JFields × List Char)
  | 0, _ => none
  | Nat.succ fuel, s =>
    match skipWS s with
    | [] => none
    | c :: r =>
      if c = dq then
        match readStringRest r with
        | some kr =>
          match skipWS kr.2 with
          | ':' :: r2 =>
            match parseVal fuel r2 with
            | some vr =>
              match skipWS vr.2 with
              | [] => none
              | c2 :: r3 =>
                if c2 = ',' then
                  match parseFields fuel r3 with
                  | some fr => some (JFields.fcons kr.1 vr.1 fr.1, fr.2)
                  | none => none
                else if c2 = rbrace then
                  some (JFields.fcons kr.1 vr.1 JFields.fnil, r3)
                else none
            | none => none
          | _ => none
        | none => none
      else none

/-- Parse one or more comma-separated array items followed by the closing
bracket. -/
def parseItems : Nat → List Char → Option (JItems × List Char)
  | 0, _ => none
  | Nat.succ fuel, s =>
    match parseVal fuel s with
    | some vr =>
      match skipWS vr.2 with
      | ',' :: r2 =>
        match parseItems fuel r2 with
        | some ir => some (JItems.cons vr.1 ir.1, ir.2)
        | none => none
      | ']' :: r2 => some (JItems.cons vr.1 JItems.nil, r2)
      | _ => none
    | none => none
end

/-- Model of JSON.parse on one framed line: a full parse must consume the
entire line up to trailing whitespace. -/
def jsonParse (line : List Char) : Option JValue :=
  match parseVal (2 * line.length + 2) line with
  | some vr => if skipWS vr.2 = [] then some vr.1 else none
  | none => none

/-- Decimal digit character for a value below ten. -/
def digitChar (d : Nat) : Char := Char.ofNat (48 + d)

/-- Decimal digits of a natural number, most significant first; fuel-driven
recursion on the magnitude. -/
def natCharsGo : Nat → Nat → List Char
  | 0, _ => []
  | Nat.succ fuel, n =>
    if n < 10 then [digitChar n]
    else natCharsGo fuel (n / 10) ++ [digitChar (n % 10)]

/-- Decimal representation of a natural number. -/
def natChars (n : Nat) : List Char := natCharsGo (n + 1) n

/-- Decimal representation of an integer. -/
def intChars (n : Int) : List Char :=
  if n < 0 then '-' :: natChars n.natAbs else natChars n.natAbs

/-- Lower-case hexadecimal digit character. -/
def hexDigit (n : Nat) : Char :=
  if n < 10 then Char.ofNat (48 + n) else Char.ofNat (97 + n - 10)

/-- Escape one character for a JSON string literal, as JSON.stringify
does: named escapes for the common control characters, a unicode escape
for the remaining control characters, everything else verbatim. -/
def escapeChar (c : Char) : List Char :=
  if c = dq then ['\\', dq]
  else if c = '\\' then ['\\', '\\']
  else if c = '\n' then ['\\', 'n']
  else if c = '\r' then ['\\', 'r']
  else if c = '\t' then ['\\', 't']
  else if c = Char.ofNat 8 then ['\\', 'b']
  else if c = Char.ofNat 12 then ['\\', 'f']
  else if c.toNat < 32 then
    ['\\', 'u', '0', '0', hexDigit (c.toNat / 16), hexDigit (c.toNat % 16)]
  else [c]

/-- Escape a whole string body. -/
def escapeList (s : List Char) : List Char :=
  (s.map escapeChar).flatten

mutual
/-- Model of JSON.stringify on a JSON value. -/
def stringifyVal : JValue → List Char
  | JValue.jnull => ['n', 'u', 'l', 'l']
  | JValue.jbool true => ['t', 'r', 'u', 'e']
  | JValue.jbool false => ['f', 'a', 'l', 's', 'e']
  | JValue.jnum n => intChars n
  | JValue.jstr s => dq :: (escapeList s ++ [dq])
  | JValue.jarr xs => '[' :: (stringifyItems xs ++ [']'])
  | JValue.jobj fs => lbrace :: (stringifyFields fs ++ [rbrace])

/-- Serialize array items, comma separated. -/
def stringifyItems : JItems → List Char
  | JItems.nil => []
  | JItems.cons v JItems.nil => stringifyVal v
  | JItems.cons v (JItems.cons w ys) =>
    stringifyVal v ++ ',' :: stringifyItems (JItems.cons w ys)

/-- Serialize object fields, comma separated. -/
def stringifyFields : JFields → List Char
  | JFields.fnil => []
  | JFields.fcons k v JFields.fnil =>
    dq :: (escapeList k ++ dq :: ':' :: stringifyVal v)
  | JFields.fcons k v (JFields.fcons k2 v2 fs) =>
    (dq :: (escapeList k ++ dq :: ':' :: stringifyVal v)) ++
      ',' :: stringifyFields (JFields.fcons k2 v2 fs)
end

/-- Whether an object-field list contains a given key. -/
def hasFieldKey (k : List Char) : JFields → Bool
  | JFields.fnil => false
  | JFields.fcons k2 _ fs => k2 == k || hasFieldKey k fs

/-- Whether a JSON value is an object carrying a given key. -/
def objHasKey (k : List Char) : JValue → Bool
  | JValue.jobj fs => hasFieldKey k fs
  | _ => false

/-! ### Process manager state machine (src/pythonManager.js)

The class fields (constructor, lines 7-12) become a state record;
spawn(...) handles are reduced to what the code observes of them
(identity, presence of stdin, whether a write would throw); the
asynchronous handlers become explicit event functions.  Observable
actions (spawning, logging, user-visible messages, stdin writes, kill,
callback invocation) are reified as effects. -/

/-- Observable behavior of a spawned child process handle, as used by the
manager: `stdinPresent` models the `this.process.stdin` check and
`writeThrows` models a throwing `stdin.write`. -/
structure Proc : Type where
  pid : Nat
  stdinPresent : Bool
  writeThrows : Bool

/-- Manager state: the three fields set up by the constructor
(lines 7-12).  The message callback is identified by a number standing
for the function object. -/
structure ManagerState : Type where
  process : Option Proc
  messageCallback : Option Nat
  outputBuffer : List Char

/-- State produced by the constructor: no process, no callback, empty
buffer. -/
def initialManagerState : ManagerState :=
  { process := none, messageCallback := none, outputBuffer := [] }

/-- Observable effects of the manager's operations. -/
inductive Effect : Type where
  | spawned : List Char → Effect
  | loggedAlreadyRunning : Effect
  | loggedExit : Option Int → Effect
  | loggedNotRunning : Effect
  | loggedParseError : List Char → Effect
  | shownSpawnError : Effect
  | shownCommError : Effect
  | shownExitWarning : Int → Effect
  | wroteStdin : List Char → Effect
  | sentKill : Effect
  | invokedCallback : Nat → JValue → Effect

/-- JavaScript truthiness of an optional string: present and nonempty. -/
def isTruthy : Option (List Char) → Bool
  | some s => !s.isEmpty
  | none => false

/-- Inputs read by start from the host configuration and environment
(lines 26-61): interpreter settings, extension path, workspace folder,
configured extra paths, inherited PYTHONPATH, and the outcome of the
spawn attempt. -/
structure StartConfig : Type where
  defaultInterpreterPath : Option (List Char)
  explorerPythonPath : Option (List Char)
  platformIsWin32 : Bool
  extensionPath : List Char
  workspaceFolder : Option (List Char)
  extraPaths : List (List Char)
  envPythonPath : Option (List Char)
  spawnThrows : Bool
  freshProc : Proc

/-- Interpreter selection fallback chain (lines 26-34). -/
def pickPythonPath (cfg : StartConfig) : List Char :=
  if isTruthy cfg.defaultInterpreterPath then cfg.defaultInterpreterPath.getD []
  else if isTruthy cfg.explorerPythonPath then cfg.explorerPythonPath.getD []
  else if cfg.platformIsWin32 then ['p', 'y', 't', 'h', 'o', 'n']
  else ['p', 'y', 't', 'h', 'o', 'n', '3']

/-- Name of the extension-owned python directory. -/
def pythonDirName : List Char := ['p', 'y', 't', 'h', 'o', 'n']

/-- Resolution of the configured extra paths (lines 46-51): absolute
entries pass through, relative entries are joined against the workspace
folder when present. -/
def resolvedExtraPaths (extraPaths : List (List Char)) (workspaceFolder : Option (List Char)) :
    List (List Char) :=
  extraPaths.map fun p =>
    if isAbsolutePath p then p
    else
      match workspaceFolder with
      | some ws => pathJoin ws p
      | none => p

/-- Construction of the PYTHONPATH environment string (lines 53-57):
resolved extra paths, then the extension python path, then the inherited
PYTHONPATH when truthy, joined with the platform delimiter. -/
def buildPythonPathEnv (extraPaths : List (List Char)) (workspaceFolder : Option (List Char))
    (extensionPythonPath : List Char) (envPythonPath : Option (List Char)) : List Char :=
  intercalateChar posixDelimiter
    ((resolvedExtraPaths extraPaths workspaceFolder ++ [extensionPythonPath]) ++
      (if isTruthy envPythonPath then [envPythonPath.getD []] else []))

/-- Model of start (lines 14-76): always rebind the callback; return at
once when a process exists; otherwise reset the buffer, build the
environment, and attempt the spawn, which either throws (caught, error
shown, state stays idle) or installs the fresh process handle. -/
def start (st : ManagerState) (onMessage : Nat) (cfg : StartConfig) :
    ManagerState × List Effect :=
  let st1 := { st with messageCallback := some onMessage }
  match st1.process with
  | some _ => (st1, [Effect.loggedAlreadyRunning])
  | none =>
    let st2 := { st1 with outputBuffer := [] }
    if cfg.spawnThrows then (st2, [Effect.shownSpawnError])
    else
      ({ st2 with process := some cfg.freshProc },
       [Effect.spawned (buildPythonPathEnv cfg.extraPaths cfg.workspaceFolder
          (pathJoin cfg.extensionPath pythonDirName) cfg.envPythonPath)])

/-- Per-line behavior of the stdout handler (lines 98-110): JSON-decode
the framed line; on success invoke the current callback when one is
registered; on failure log a parse error and continue. -/
def lineEffects (cb : Option Nat) (line : List Char) : List Effect :=
  match jsonParse line with
  | some v =>
    match cb with
    | some c => [Effect.invokedCallback c v]
    | none => []
  | none => [Effect.loggedParseError line]

/-- The stdout 'data' handler (lines 88-112): append the chunk, extract
complete lines, process each in order, keep the remainder buffered. -/
def handleStdoutData (st : ManagerState) (chunk : List Char) : ManagerState × List Effect :=
  ({ st with outputBuffer := (frame (st.outputBuffer ++ chunk)).2 },
   (frame (st.outputBuffer ++ chunk)).1.flatMap (lineEffects st.messageCallback))

/-- The 'close' handler (lines 126-136): log the exit, warn the user when
the code is neither zero nor null, clear the process handle and the
output buffer. -/
def handleClose (st : ManagerState) (code : Option Int) : ManagerState × List Effect :=
  ({ st with process := none, outputBuffer := [] },
   Effect.loggedExit code ::
     (match code with
      | some c => if c ≠ 0 then [Effect.shownExitWarning c] else []
      | none => []))

/-- Model of sendCommand (lines 139-155): refuse silently when there is no
process or no stdin; otherwise serialize the command to one JSON line and
write it, catching a throwing write as a user-visible communication
error. -/
def sendCommand (st : ManagerState) (command : JValue) : Bool × List Effect :=
  match st.process with
  | none => (false, [Effect.loggedNotRunning])
  | some p =>
    if !p.stdinPresent then (false, [Effect.loggedNotRunning])
    else if p.writeThrows then (false, [Effect.shownCommError])
    else (true, [Effect.wroteStdin (stringifyVal command ++ ['\n'])])

/-- Model of dispose (lines 218-223): kill and clear the process when one
exists, otherwise do nothing. -/
def dispose (st : ManagerState) : ManagerState × List Effect :=
  match st.process with
  | some _ => ({ st with process := none }, [Effect.sentKill])
  | none => (st, [])

/-- Key of the command kind field. -/
def kwCommand : List Char := ['c', 'o', 'm', 'm', 'a', 'n', 'd']

/-- Key of the variable name field. -/
def kwName : List Char := ['n', 'a', 'm', 'e']

/-- Key of the optional path field. -/
def kwPath : List Char := ['p', 'a', 't', 'h']

/-- Wire name of the get-details command. -/
def kwGetDetails : List Char := ['g', 'e', 't', '_', 'd', 'e', 't', 'a', 'i', 'l', 's']

/-- Command object built by getDetails (lines 179-184): command and name
fields always, the path field only when the path argument is truthy. -/
def getDetailsCommand (varName : List Char) (pathArg : Option (List Char)) : JValue :=
  JValue.jobj (JFields.fcons kwCommand (JValue.jstr kwGetDetails)
    (JFields.fcons kwName (JValue.jstr varName)
      (if isTruthy pathArg then
        JFields.fcons kwPath (JValue.jstr (pathArg.getD [])) JFields.fnil
      else JFields.fnil)))

/-- Model of getDetails (lines 179-185): build the command object and
forward it through sendCommand, returning its result unchanged. -/
def getDetails (st : ManagerState) (varName : List Char) (pathArg : Option (List Char)) :
    Bool × List Effect :=
  sendCommand st (getDetailsCommand varName pathArg)

/-- Number of spawn effects in an effect list. -/
def countSpawns (es : List Effect) : Nat :=
  es.countP fun e =>
    match e with
    | Effect.spawned _ => true
    | _ => false

/-- Whether an effect is the user-visible exit warning. -/
def isWarningEffect (e : Effect) : Bool :=
  match e with
  | Effect.shownExitWarning _ => true
  | _ => false

/-! ### Spec-side environment resolution and the start variant

The first definition below follows the words of the specification
(section 4.1) for comparison with `buildPythonPathEnv`.  The remaining
definitions embed the start variant of src/unnamed/part_000 (lines
29-74), whose addSubdirs scan reads workspace subdirectories from the
filesystem; the directory listing (Node fs.readdirSync) is passed in as
a listing function. -/

/-- Resolution of one extra path in the words of the specification:
already-absolute entries pass through unchanged; relative entries are
joined against the workspace root when present, otherwise left as-is. -/
def specResolvedEntry (workspaceRoot : Option (List Char)) (p : List Char) : List Char :=
  if isAbsolutePath p then p
  else
    match workspaceRoot with
    | some ws => pathJoin ws p
    | none => p

/-- Ordered search-path list in the words of the specification: each extra
path resolved, then the extension-owned path, then the inherited search
path if non-empty. -/
def specResolvedList (extraPaths : List (List Char)) (workspaceRoot : Option (List Char))
    (extensionOwnedPath : List Char) (inherited : Option (List Char)) : List (List Char) :=
  extraPaths.map (specResolvedEntry workspaceRoot) ++ [extensionOwnedPath] ++
    (match inherited with
     | some s => if s.isEmpty then [] else [s]
     | none => [])

/-- Search-path environment string in the words of the specification: the
ordered list joined with the platform path-list separator. -/
def specResolvedString (extraPaths : List (List Char)) (workspaceRoot : Option (List Char))
    (extensionOwnedPath : List Char) (inherited : Option (List Char)) : List Char :=
  intercalateChar posixDelimiter
    (specResolvedList extraPaths workspaceRoot extensionOwnedPath inherited)

/-- One entry of a directory listing, as observed by the variant's scan. -/
structure DirEntry : Type where
  entryName : List Char
  isDir : Bool

/-- Filter applied to directory entries by the variant (part_000 lines
49-54): directories whose name does not start with a dot or a double
underscore and is not node_modules, venv or .git. -/
def includeSubdir (e : DirEntry) : Bool :=
  e.isDir && !(List.isPrefixOf ['.'] e.entryName) && !(List.isPrefixOf ['_', '_'] e.entryName)
    && !(e.entryName == ['n', 'o', 'd', 'e', '_', 'm', 'o', 'd', 'u', 'l', 'e', 's'])
    && !(e.entryName == ['v', 'e', 'n', 'v'])
    && !(e.entryName == ['.', 'g', 'i', 't'])

/-- The variant's recursive subdirectory scan (part_000 lines 45-62),
depth-first, pushing each kept subdirectory before descending into it.
The depth cutoff (return once depth exceeds five) is carried as fuel:
the initial call at depth zero corresponds to fuel six. -/
def addSubdirs (fs : List Char → List DirEntry) : Nat → List Char → List (List Char)
  | 0, _ => []
  | Nat.succ fuel, dir =>
    (fs dir).flatMap fun e =>
      if includeSubdir e then
        pathJoin dir e.entryName :: addSubdirs fs fuel (pathJoin dir e.entryName)
      else []

/-- PYTHONPATH construction of the start variant (part_000 lines 29-74):
like the main resolver, but with the scanned workspace subdirectories
appended to the resolved extra paths before the extension path. -/
def variantPythonPathEnv (fs : List Char → List DirEntry) (extraPaths : List (List Char))
    (workspaceFolder : Option (List Char)) (extensionPythonPath : List Char)
    (envPythonPath : Option (List Char)) : List Char :=
  intercalateChar posixDelimiter
    (((resolvedExtraPaths extraPaths workspaceFolder ++
        (match workspaceFolder with
         | some ws => addSubdirs fs 6 ws
         | none => [])) ++ [extensionPythonPath]) ++
      (if isTruthy envPythonPath then [envPythonPath.getD []] else []))

/-! ### Concrete inputs for witnesses and counterexamples -/

/-- Workspace root of the resolver example. -/
def wsChars : List Char := ['/', 'w', 's']

/-- Relative extra path of the resolver example. -/
def dotLibChars : List Char := ['.', '/', 'l', 'i', 'b']

/-- Absolute extra path of the resolver example. -/
def absXChars : List Char := ['/', 'a', 'b', 's', '/', 'x']

/-- Extension-owned path of the resolver example. -/
def extPyChars : List Char := ['/', 'e', 'x', 't', '/', 'p', 'y', 't', 'h', 'o', 'n']

/-- Inherited search path of the resolver example. -/
def oldChars : List Char := ['/', 'o', 'l', 'd']

/-- Name of the one subdirectory in the example filesystem. -/
def srcChars : List Char := ['s', 'r', 'c']

/-- Example filesystem for the variant scan: the workspace root contains a
single subdirectory named src, which is empty. -/
def fs0 : List Char → List DirEntry :=
  fun d => if d == wsChars then [{ entryName := srcChars, isDir := true }] else []

/-- Stream of the codec test: a well-formed object line, a malformed line,
then another well-formed object line. -/
def c6chunk : List Char :=
  [lbrace, dq, 'a', dq, ':', '1', rbrace, '\n',
   'N', 'O', 'T', '-', 'J', 'S', 'O', 'N', '\n',
   lbrace, dq, 'b', dq, ':', '2', rbrace, '\n']

/-- The malformed middle line of the codec test. -/
def c6lineBad : List Char := ['N', 'O', 'T', '-', 'J', 'S', 'O', 'N']

/-- Decoded first object of the codec test. -/
def c6respA : JValue := JValue.jobj (JFields.fcons ['a'] (JValue.jnum 1) JFields.fnil)

/-- Decoded last object of the codec test. -/
def c6respB : JValue := JValue.jobj (JFields.fcons ['b'] (JValue.jnum 2) JFields.fnil)

/-- Concrete process handle with working stdin. -/
def procOk : Proc := { pid := 1, stdinPresent := true, writeThrows := false }

/-- Concrete process handle whose write throws. -/
def procBad : Proc := { pid := 2, stdinPresent := true, writeThrows := true }

/-- Concrete start configuration whose spawn succeeds. -/
def cfgA : StartConfig :=
  { defaultInterpreterPath := none, explorerPythonPath := none, platformIsWin32 := false,
    extensionPath := ['/', 'e', 'x', 't'], workspaceFolder := some wsChars,
    extraPaths := [], envPythonPath := none, spawnThrows := false, freshProc := procOk }

/-- Second concrete start configuration whose spawn succeeds. -/
def cfgB : StartConfig :=
  { defaultInterpreterPath := none, explorerPythonPath := none, platformIsWin32 := false,
    extensionPath := ['/', 'e', 'x', 't'], workspaceFolder := some wsChars,
    extraPaths := [], envPythonPath := none, spawnThrows := false,
    freshProc := { pid := 3, stdinPresent := true, writeThrows := false } }


/-- Concrete running state with a buffered fragment, used by witnesses. -/
def stWarm : ManagerState :=
  { process := some procOk, messageCallback := some 4, outputBuffer := ['z'] }

/-- Concrete running state with a one-character buffered fragment. -/
def stFrag : ManagerState :=
  { process := some procOk, messageCallback := some 5, outputBuffer := ['f'] }

/-! ### Framer lemmas -/

/-- A buffer without a newline yields nothing and stays accumulated. -/
theorem frameGo_of_no_newline (buf : List Char) :
    ∀ cur, '\n' ∉ buf → frameGo cur buf = ([], cur ++ buf) := by
  induction buf with
  | nil => intro cur _; simp [frameGo]
  | cons c cs ih =>
    intro cur h
    rw [List.mem_cons] at h
    push_neg at h
    have hc : ¬ c = '\n' := fun e => h.1 e.symm
    simp only [frameGo, if_neg hc]
    rw [ih _ h.2]
    simp

/-- The extraction loop is a homomorphism with respect to buffer
concatenation: processing an appended tail continues from the state the
head left behind. -/
theorem frameGo_append (x : List Char) :
    ∀ cur y, frameGo cur (x ++ y) =
      ((frameGo cur x).1 ++ (frameGo (frameGo cur x).2 y).1,
       (frameGo (frameGo cur x).2 y).2) := by
  induction x with
  | nil => intro cur y; simp [frameGo]
  | cons c cs ih =>
    intro cur y
    by_cases hc : c = '\n'
    · subst hc
      have ihy := ih [] y
      by_cases ht : trim cur = []
      · simp [frameGo, ht, ihy]
      · simp [frameGo, ht, ihy]
    · simp [frameGo, hc, ih (cur ++ [c]) y]

/-- The loop never leaves a newline in its pending accumulator. -/
theorem frameGo_state_no_newline (buf : List Char) :
    ∀ cur, '\n' ∉ cur → '\n' ∉ (frameGo cur buf).2 := by
  induction buf with
  | nil => intro cur h; simpa [frameGo] using h
  | cons c cs ih =>
    intro cur h
    by_cases hc : c = '\n'
    · subst hc
      simp only [frameGo, if_pos rfl]
      exact ih [] (by simp)
    · simp only [frameGo, if_neg hc]
      apply ih
      intro hm
      rcases List.mem_append.mp hm with h1 | h2
      · exact h h1
      · exact hc (List.mem_singleton.mp h2).symm

/-- Running the loop with a newline-free pending accumulator is the same
as running it from scratch on the accumulator prepended. -/
theorem frameGo_eq_frame (cur y : List Char) (h : '\n' ∉ cur) :
    frameGo cur y = frame (cur ++ y) := by
  rw [frame, frameGo_append cur [] y, frameGo_of_no_newline cur [] h]
  simp

/-- Feeding chunks one at a time equals one framing pass over their
concatenation: the framer is invariant under chunk-boundary splits. -/
theorem feedMany_eq_frame (chunks : List (List Char)) :
    ∀ buffer, '\n' ∉ buffer → feedMany buffer chunks = frame (buffer ++ chunks.flatten) := by
  induction chunks with
  | nil =>
    intro buffer h
    simp only [feedMany, List.flatten_nil, List.append_nil]
    rw [frame, frameGo_of_no_newline buffer [] h]
    simp
  | cons c cs ih =>
    intro buffer h
    have hb : '\n' ∉ (feed buffer c).2 := frameGo_state_no_newline _ [] (by simp)
    simp only [feedMany]
    rw [ih _ hb]
    have h2 : buffer ++ (c :: cs).flatten = (buffer ++ c) ++ cs.flatten := by
      simp [List.flatten_cons, List.append_assoc]
    rw [h2]
    show _ = frameGo [] ((buffer ++ c) ++ cs.flatten)
    rw [frameGo_append (buffer ++ c) [] cs.flatten]
    have h3 : frameGo [] (buffer ++ c) = feed buffer c := rfl
    rw [h3, frameGo_eq_frame _ _ hb]

/-- Consuming one terminated line: the loop yields the trimmed pending
prefix (when nonempty) and continues on the remainder. -/
theorem frameGo_line (pre : List Char) :
    ∀ cur rest, '\n' ∉ pre →
      frameGo cur (pre ++ '\n' :: rest) =
        (if trim (cur ++ pre) = [] then (frameGo [] rest).1
         else trim (cur ++ pre) :: (frameGo [] rest).1,
         (frameGo [] rest).2) := by
  induction pre with
  | nil => intro cur rest _; simp [frameGo]
  | cons a as ih =>
    intro cur rest h
    rw [List.mem_cons] at h
    push_neg at h
    have ha : ¬ a = '\n' := fun e => h.1 e.symm
    have ihx := ih (cur ++ [a]) rest h.2
    simp [frameGo, ha, ihx, List.append_assoc]

/-- Framing a concatenation of newline-terminated newline-free lines
yields their trims, empties suppressed, and empties the buffer. -/
theorem frame_of_lines (lines : List (List Char)) (h : ∀ l ∈ lines, '\n' ∉ l) :
    frame ((lines.map (fun l => l ++ ['\n'])).flatten) =
      ((lines.map trim).filter (fun l => !decide (l = [])), []) := by
  induction lines with
  | nil => simp [frame, frameGo]
  | cons l ls ih =>
    have hl : '\n' ∉ l := h l (List.mem_cons_self l ls)
    have hls : ∀ x ∈ ls, '\n' ∉ x := fun x hx => h x (List.mem_cons_of_mem l hx)
    have key : (l ++ ['\n']) ++ (ls.map (fun l => l ++ ['\n'])).flatten
        = l ++ '\n' :: (ls.map (fun l => l ++ ['\n'])).flatten := by
      simp [List.append_assoc]
    simp only [List.map_cons, List.flatten_cons, key]
    rw [frame, frameGo_line l [] _ hl]
    rw [show frameGo [] ((ls.map (fun l => l ++ ['\n'])).flatten)
        = frame ((ls.map (fun l => l ++ ['\n'])).flatten) from rfl, ih hls]
    by_cases ht : trim ([] ++ l) = []
    · simp [List.filter_cons, ht]
    · simp [List.filter_cons, ht]

/-- The suffix after the last newline never contains a newline. -/
theorem afterLastNL_no_newline (l : List Char) : '\n' ∉ afterLastNL l := by
  induction l with
  | nil => simp [afterLastNL]
  | cons c cs ih =>
    by_cases hm : '\n' ∈ cs
    · simpa [afterLastNL, hm] using ih
    · by_cases hc : c = '\n'
      · simp only [afterLastNL, if_neg hm, if_pos hc]
        exact hm
      · simp only [afterLastNL, if_neg hm, if_neg hc]
        intro hmem
        rcases List.mem_cons.mp hmem with h1 | h1
        · exact hc h1.symm
        · exact hm h1

/-- On a newline-free list the suffix after the last newline is the list
itself. -/
theorem afterLastNL_of_no_newline (l : List Char) (h : '\n' ∉ l) : afterLastNL l = l := by
  induction l with
  | nil => rfl
  | cons c cs ih =>
    rw [List.mem_cons] at h
    push_neg at h
    have hc : ¬ c = '\n' := fun e => h.1 e.symm
    simp [afterLastNL, h.2, hc]

/-- Decomposition of a list around its last newline. -/
theorem upToLastNL_append_afterLastNL (l : List Char) :
    upToLastNL l ++ afterLastNL l = l := by
  induction l with
  | nil => rfl
  | cons c cs ih =>
    by_cases hm : '\n' ∈ cs
    · simp [upToLastNL, afterLastNL, hm, ih]
    · by_cases hc : c = '\n'
      · subst hc
        simp [upToLastNL, afterLastNL, hm]
      · simp [upToLastNL, afterLastNL, hm, hc]

/-- The loop's final pending state is exactly the bytes after the last
newline (the whole input prefixed by the accumulator when there is
none). -/
theorem frameGo_state_eq (buf : List Char) :
    ∀ cur, (frameGo cur buf).2 = if '\n' ∈ buf then afterLastNL buf else cur ++ buf := by
  induction buf with
  | nil => intro cur; simp [frameGo]
  | cons c cs ih =>
    intro cur
    by_cases hc : c = '\n'
    · subst hc
      simp only [frameGo, if_pos rfl]
      rw [ih []]
      by_cases hm : '\n' ∈ cs
      · simp [afterLastNL, hm]
      · simp [afterLastNL, hm]
    · simp only [frameGo, if_neg hc]
      rw [ih (cur ++ [c])]
      by_cases hm : '\n' ∈ cs
      · have hmem : '\n' ∈ c :: cs := List.mem_cons_of_mem c hm
        simp [afterLastNL, hm, hc, hmem]
      · have hnotin : '\n' ∉ c :: cs := by
          intro hh
          rcases List.mem_cons.mp hh with h1 | h1
          · exact hc h1.symm
          · exact hm h1
        simp [afterLastNL, hm, hc, hnotin, List.append_assoc]

/-- The framer's buffer after one pass is the suffix after the last
newline. -/
theorem frame_buffer_eq (buf : List Char) : (frame buf).2 = afterLastNL buf := by
  rw [frame, frameGo_state_eq buf []]
  by_cases hm : '\n' ∈ buf
  · simp [hm]
  · simp [hm, afterLastNL_of_no_newline buf hm]

/-- The framer's outputs ignore the unterminated trailing fragment. -/
theorem frame_output_drops_tail (buf : List Char) :
    (frame buf).1 = (frame (upToLastNL buf)).1 := by
  conv_lhs => rw [← upToLastNL_append_afterLastNL buf]
  rw [frame, frameGo_append (upToLastNL buf) [] (afterLastNL buf)]
  rw [frameGo_of_no_newline (afterLastNL buf) _ (afterLastNL_no_newline buf)]
  simp [frame]

/-- C1: for every byte-chunk sequence whose concatenation is a fixed
sequence of well-formed newline-terminated lines, feeding the chunks one
by one yields exactly the original lines in order — independent of the
chunk boundaries — with surrounding whitespace trimmed and lines empty
after trimming suppressed (and the buffer ends empty). -/
theorem c1_framer_split_invariance (chunks lines : List (List Char))
    (hsplit : chunks.flatten = (lines.map (fun l => l ++ ['\n'])).flatten)
    (hwf : ∀ l ∈ lines, '\n' ∉ l) :
    (feedMany [] chunks).1 = (lines.map trim).filter (fun l => !decide (l = [])) ∧
    (feedMany [] chunks).2 = [] := by
  have h1 := feedMany_eq_frame chunks [] (by simp)
  rw [List.nil_append] at h1
  rw [h1, hsplit, frame_of_lines lines hwf]
  exact ⟨rfl, rfl⟩

/-- Witness for C1 at a concrete three-chunk split of two lines, with a
chunk boundary inside a line and one whitespace-led line. -/
theorem c1_witness :
    ([['a'], ['b', '\n', ' '], ['x', '\n']] : List (List Char)).flatten
        = (([['a', 'b'], [' ', 'x']] : List (List Char)).map (fun l => l ++ ['\n'])).flatten ∧
    (∀ l ∈ ([['a', 'b'], [' ', 'x']] : List (List Char)), '\n' ∉ l) ∧
    ((feedMany [] [['a'], ['b', '\n', ' '], ['x', '\n']]).1
        = (([['a', 'b'], [' ', 'x']] : List (List Char)).map trim).filter
            (fun l => !decide (l = [])) ∧
     (feedMany [] [['a'], ['b', '\n', ' '], ['x', '\n']]).2 = []) :=
  ⟨by decide, by decide, c1_framer_split_invariance _ _ (by decide) (by decide)⟩

/-- C2: a trailing fragment not followed by a terminator is never yielded
(the outputs coincide with those of the prefix up to the last newline),
the buffer after any feed sequence is exactly the bytes after the last
newline, and the buffer is reset by the close handler and by a start from
idle. -/
theorem c2_fragment_buffered_never_yielded :
    (∀ chunks : List (List Char),
      (feedMany [] chunks).2 = afterLastNL chunks.flatten ∧
      (feedMany [] chunks).1 = (frame (upToLastNL chunks.flatten)).1) ∧
    (∀ (st : ManagerState) (code : Option Int),
      (handleClose st code).1.outputBuffer = []) ∧
    (∀ (st : ManagerState) (cb : Nat) (cfg : StartConfig),
      st.process = none → (start st cb cfg).1.outputBuffer = []) := by
  refine ⟨fun chunks => ?_, fun st code => rfl, fun st cb cfg h => ?_⟩
  · have h1 := feedMany_eq_frame chunks [] (by simp)
    rw [List.nil_append] at h1
    rw [h1, frame_buffer_eq, ← frame_output_drops_tail]
    exact ⟨rfl, rfl⟩
  · simp only [start]
    rw [show ({ st with messageCallback := some cb } : ManagerState).process
        = st.process from rfl, h]
    by_cases hs : cfg.spawnThrows <;> simp [hs]

/-- Witness for C2: a concrete chunk sequence with a trailing fragment,
plus a concrete start from the idle state. -/
theorem c2_witness :
    (feedMany [] [['a', '\n', 'f'], ['r']]).2
        = afterLastNL (([['a', '\n', 'f'], ['r']] : List (List Char)).flatten) ∧
    initialManagerState.process = none ∧
    (start initialManagerState 0 cfgA).1.outputBuffer = [] :=
  ⟨(c2_fragment_buffered_never_yielded.1 [['a', '\n', 'f'], ['r']]).1, rfl,
   c2_fragment_buffered_never_yielded.2.2 initialManagerState 0 cfgA rfl⟩

/-! ### Serializer single-line lemmas -/

/-- Hexadecimal digit characters below sixteen are never a newline. -/
theorem hexDigit_ne_newline : ∀ n < 16, hexDigit n ≠ '\n' := by decide

/-- Decimal digit characters below ten are never a newline. -/
theorem digitChar_ne_newline : ∀ d < 10, digitChar d ≠ '\n' := by decide

/-- Escaping a character never produces a raw newline. -/
theorem escapeChar_no_newline (c : Char) : '\n' ∉ escapeChar c := by
  unfold escapeChar
  split_ifs with h1 h2 h3 h4 h5 h6 h7 h8
  · intro hm; revert hm; decide
  · intro hm; revert hm; decide
  · intro hm; revert hm; decide
  · intro hm; revert hm; decide
  · intro hm; revert hm; decide
  · intro hm; revert hm; decide
  · intro hm; revert hm; decide
  · intro hm
    have hdiv : c.toNat / 16 < 16 := Nat.div_lt_of_lt_mul (by omega)
    have hmod : c.toNat % 16 < 16 := Nat.mod_lt _ (by norm_num)
    rcases List.mem_cons.mp hm with e | hm2
    · exact absurd e (by decide)
    rcases List.mem_cons.mp hm2 with e | hm3
    · exact absurd e (by decide)
    rcases List.mem_cons.mp hm3 with e | hm4
    · exact absurd e (by decide)
    rcases List.mem_cons.mp hm4 with e | hm5
    · exact absurd e (by decide)
    rcases List.mem_cons.mp hm5 with e | hm6
    · exact hexDigit_ne_newline _ hdiv e.symm
    · exact hexDigit_ne_newline _ hmod (List.mem_singleton.mp hm6).symm
  · intro hm
    exact h3 (List.mem_singleton.mp hm).symm

/-- An escaped string body never contains a raw newline. -/
theorem escapeList_no_newline (s : List Char) : '\n' ∉ escapeList s := by
  unfold escapeList
  intro hm
  rw [List.mem_flatten] at hm
  obtain ⟨l, hl, hml⟩ := hm
  rw [List.mem_map] at hl
  obtain ⟨c, _, rfl⟩ := hl
  exact escapeChar_no_newline c hml

/-- Decimal digit runs never contain a newline. -/
theorem natCharsGo_no_newline (fuel : Nat) : ∀ n, '\n' ∉ natCharsGo fuel n := by
  induction fuel with
  | zero => intro n; simp [natCharsGo]
  | succ fuel ih =>
    intro n
    by_cases h : n < 10
    · simp only [natCharsGo, if_pos h]
      intro hm
      exact digitChar_ne_newline n h (List.mem_singleton.mp hm).symm
    · simp only [natCharsGo, if_neg h]
      intro hm
      rcases List.mem_append.mp hm with h1 | h2
      · exact ih (n / 10) h1
      · exact digitChar_ne_newline (n % 10) (Nat.mod_lt _ (by norm_num))
          (List.mem_singleton.mp h2).symm

/-- Integer serializations never contain a newline. -/
theorem intChars_no_newline (n : Int) : '\n' ∉ intChars n := by
  unfold intChars natChars
  split_ifs with h
  · intro hm
    rcases List.mem_cons.mp hm with h1 | h2
    · exact absurd h1 (by decide)
    · exact natCharsGo_no_newline _ _ h2
  · exact natCharsGo_no_newline _ _

mutual
/-- Serialized JSON values occupy a single line: no raw newline occurs. -/
theorem stringifyVal_no_newline : (v : JValue) → '\n' ∉ stringifyVal v
  | JValue.jnull => by decide
  | JValue.jbool true => by decide
  | JValue.jbool false => by decide
  | JValue.jnum n => intChars_no_newline n
  | JValue.jstr s => by
    simp only [stringifyVal]
    intro hm
    rcases List.mem_cons.mp hm with h1 | h2
    · exact absurd h1 (by decide)
    rcases List.mem_append.mp h2 with h3 | h4
    · exact escapeList_no_newline s h3
    · exact absurd (List.mem_singleton.mp h4) (by decide)
  | JValue.jarr xs => by
    simp only [stringifyVal]
    intro hm
    rcases List.mem_cons.mp hm with h1 | h2
    · exact absurd h1 (by decide)
    rcases List.mem_append.mp h2 with h3 | h4
    · exact stringifyItems_no_newline xs h3
    · exact absurd (List.mem_singleton.mp h4) (by decide)
  | JValue.jobj fs => by
    simp only [stringifyVal]
    intro hm
    rcases List.mem_cons.mp hm with h1 | h2
    · exact absurd h1 (by decide)
    rcases List.mem_append.mp h2 with h3 | h4
    · exact stringifyFields_no_newline fs h3
    · exact absurd (List.mem_singleton.mp h4) (by decide)

/-- Serialized JSON array items occupy a single line. -/
theorem stringifyItems_no_newline : (xs : JItems) → '\n' ∉ stringifyItems xs
  | JItems.nil => by simp [stringifyItems]
  | JItems.cons v JItems.nil => by
    simp only [stringifyItems]
    exact stringifyVal_no_newline v
  | JItems.cons v (JItems.cons w ys) => by
    simp only [stringifyItems]
    intro hm
    rcases List.mem_append.mp hm with h1 | h2
    · exact stringifyVal_no_newline v h1
    rcases List.mem_cons.mp h2 with h3 | h4
    · exact absurd h3 (by decide)
    · exact stringifyItems_no_newline (JItems.cons w ys) h4

/-- Serialized JSON object fields occupy a single line. -/
theorem stringifyFields_no_newline : (fs : JFields) → '\n' ∉ stringifyFields fs
  | JFields.fnil => by simp [stringifyFields]
  | JFields.fcons k v JFields.fnil => by
    simp only [stringifyFields]
    intro hm
    rcases List.mem_cons.mp hm with h1 | h2
    · exact absurd h1 (by decide)
    rcases List.mem_append.mp h2 with h3 | h4
    · exact escapeList_no_newline k h3
    rcases List.mem_cons.mp h4 with h5 | h6
    · exact absurd h5 (by decide)
    rcases List.mem_cons.mp h6 with h7 | h8
    · exact absurd h7 (by decide)
    · exact stringifyVal_no_newline v h8
  | JFields.fcons k v (JFields.fcons k2 v2 gs) => by
    simp only [stringifyFields]
    intro hm
    rcases List.mem_append.mp hm with h1 | h2
    · rcases List.mem_cons.mp h1 with h3 | h4
      · exact absurd h3 (by decide)
      rcases List.mem_append.mp h4 with h5 | h6
      · exact escapeList_no_newline k h5
      rcases List.mem_cons.mp h6 with h7 | h8
      · exact absurd h7 (by decide)
      rcases List.mem_cons.mp h8 with h9 | h10
      · exact absurd h9 (by decide)
      · exact stringifyVal_no_newline v h10
    rcases List.mem_cons.mp h2 with h11 | h12
    · exact absurd h11 (by decide)
    · exact stringifyFields_no_newline (JFields.fcons k2 v2 gs) h12
end

/-! ### Claim theorems for the resolver and the supervisor -/

/-- C3 counterexample: on the start variant of the unnamed fragment, whose
resolver scans the filesystem, the resolved search-path string differs
from the purely textual resolution the claim describes — here with extra
paths ./lib and /abs/x, workspace root /ws, extension path /ext/python,
inherited /old, and a filesystem where /ws contains one subdirectory
named src. -/
theorem c3_counterexample :
    variantPythonPathEnv fs0 [dotLibChars, absXChars] (some wsChars) extPyChars (some oldChars)
      ≠ specResolvedString [dotLibChars, absXChars] (some wsChars) extPyChars (some oldChars) := by
  decide

/-- C3 amended: the main manager's resolver equals the purely textual
resolution described by the claim (extras in order, absolute entries
unchanged, relative entries joined against the workspace root when
present, then the extension-owned path, then the inherited search path
exactly when non-empty, joined with the platform separator, no
deduplication and no filesystem input); the start variant instead inserts
the recursively scanned workspace subdirectories between the resolved
extras and the extension-owned path. -/
theorem c3_amended_resolution (extraPaths : List (List Char))
    (workspaceFolder : Option (List Char)) (extensionPythonPath : List Char)
    (envPythonPath : Option (List Char)) (fs : List Char → List DirEntry) :
    buildPythonPathEnv extraPaths workspaceFolder extensionPythonPath envPythonPath
      = specResolvedString extraPaths workspaceFolder extensionPythonPath envPythonPath ∧
    variantPythonPathEnv fs extraPaths workspaceFolder extensionPythonPath envPythonPath
      = intercalateChar posixDelimiter
          ((extraPaths.map (specResolvedEntry workspaceFolder) ++
            (match workspaceFolder with
             | some ws => addSubdirs fs 6 ws
             | none => []) ++ [extensionPythonPath]) ++
            (match envPythonPath with
             | some s => if s.isEmpty then [] else [s]
             | none => [])) := by
  have hmap : resolvedExtraPaths extraPaths workspaceFolder
      = extraPaths.map (specResolvedEntry workspaceFolder) := rfl
  constructor
  · unfold buildPythonPathEnv specResolvedString specResolvedList
    congr 1
    cases envPythonPath with
    | none => simp [isTruthy, hmap, List.append_assoc]
    | some s =>
      cases hs : s.isEmpty with
      | true => simp [isTruthy, hs, hmap, List.append_assoc]
      | false => simp [isTruthy, hs, hmap, List.append_assoc]
  · unfold variantPythonPathEnv
    congr 1
    cases envPythonPath with
    | none => simp [isTruthy, hmap, List.append_assoc]
    | some s =>
      cases hs : s.isEmpty with
      | true => simp [isTruthy, hs, hmap, List.append_assoc]
      | false => simp [isTruthy, hs, hmap, List.append_assoc]

/-- Every invocation effect the stdout handler emits carries the callback
currently registered in the state. -/
theorem handleStdoutData_callback_bound (st : ManagerState) (cb : Nat)
    (hcb : st.messageCallback = some cb) (chunk : List Char) :
    ∀ e ∈ (handleStdoutData st chunk).2,
      ∀ (c : Nat) (v : JValue), e = Effect.invokedCallback c v → c = cb := by
  intro e he c v hev
  simp only [handleStdoutData] at he
  rw [List.mem_flatMap] at he
  obtain ⟨line, _, hl⟩ := he
  rw [hcb] at hl
  revert hl
  cases hp : jsonParse line with
  | some w =>
    simp only [lineEffects, hp]
    intro hl
    rw [List.mem_singleton] at hl
    subst hl
    injection hev with h1 _
    exact h1.symm
  | none =>
    simp only [lineEffects, hp]
    intro hl
    rw [List.mem_singleton] at hl
    subst hl
    exact Effect.noConfusion hev

/-- C4: calling start twice without an intervening exit spawns exactly one
process — the second call returns without spawning and leaves the same
process handle — yet rebinds the message callback, and every subsequent
decoded response is delivered to the second callback. -/
theorem c4_start_once_rebind (st0 : ManagerState) (cb1 cb2 : Nat)
    (cfg1 cfg2 : StartConfig) (h0 : st0.process = none)
    (hs : cfg1.spawnThrows = false) :
    countSpawns ((start st0 cb1 cfg1).2 ++ (start (start st0 cb1 cfg1).1 cb2 cfg2).2) = 1 ∧
    (start (start st0 cb1 cfg1).1 cb2 cfg2).1.process = some cfg1.freshProc ∧
    (start (start st0 cb1 cfg1).1 cb2 cfg2).1.messageCallback = some cb2 ∧
    (∀ (chunk : List Char) (e : Effect),
      e ∈ (handleStdoutData (start (start st0 cb1 cfg1).1 cb2 cfg2).1 chunk).2 →
      ∀ (c : Nat) (v : JValue), e = Effect.invokedCallback c v → c = cb2) := by
  have hst1 : start st0 cb1 cfg1
      = ({ st0 with messageCallback := some cb1, outputBuffer := [],
                    process := some cfg1.freshProc },
         [Effect.spawned (buildPythonPathEnv cfg1.extraPaths cfg1.workspaceFolder
            (pathJoin cfg1.extensionPath pythonDirName) cfg1.envPythonPath)]) := by
    simp only [start]
    rw [show ({ st0 with messageCallback := some cb1 } : ManagerState).process
        = st0.process from rfl, h0]
    simp [hs]
  have hst2 : start (start st0 cb1 cfg1).1 cb2 cfg2
      = ({ st0 with messageCallback := some cb2, outputBuffer := [],
                    process := some cfg1.freshProc },
         [Effect.loggedAlreadyRunning]) := by
    rw [hst1]
    rfl
  refine ⟨?_, ?_, ?_, ?_⟩
  · rw [hst2, hst1]
    rfl
  · rw [hst2]
  · rw [hst2]
  · intro chunk e he c v hev
    rw [hst2] at he
    exact handleStdoutData_callback_bound _ cb2 rfl chunk e he c v hev

/-- Witness for C4 at a fresh manager and two concrete configurations. -/
theorem c4_witness :
    initialManagerState.process = none ∧ cfgA.spawnThrows = false ∧
    countSpawns ((start initialManagerState 0 cfgA).2 ++
      (start (start initialManagerState 0 cfgA).1 1 cfgB).2) = 1 ∧
    (start (start initialManagerState 0 cfgA).1 1 cfgB).1.messageCallback = some 1 :=
  ⟨rfl, rfl, (c4_start_once_rebind initialManagerState 0 1 cfgA cfgB rfl rfl).1,
   (c4_start_once_rebind initialManagerState 0 1 cfgA cfgB rfl rfl).2.2.1⟩

/-- C5: sendCommand returns false and writes nothing when no process is
running (or its stdin is absent), never throwing; with a running process
it writes exactly the JSON serialization of the command followed by a
newline — a single line, the serialization containing no newline — and
returns true; a throwing write is caught, surfaced as a user-visible
communication error, and false is returned with nothing written. -/
theorem c5_sendCommand_delivery (st : ManagerState) (command : JValue) :
    (st.process = none → sendCommand st command = (false, [Effect.loggedNotRunning])) ∧
    (∀ p : Proc, st.process = some p → p.stdinPresent = false →
      sendCommand st command = (false, [Effect.loggedNotRunning])) ∧
    (∀ p : Proc, st.process = some p → p.stdinPresent = true → p.writeThrows = false →
      sendCommand st command
        = (true, [Effect.wroteStdin (stringifyVal command ++ ['\n'])]) ∧
      '\n' ∉ stringifyVal command) ∧
    (∀ p : Proc, st.process = some p → p.stdinPresent = true → p.writeThrows = true →
      sendCommand st command = (false, [Effect.shownCommError])) := by
  refine ⟨fun h => ?_, fun p hp hs => ?_, fun p hp hs hw => ?_, fun p hp hs hw => ?_⟩
  · simp [sendCommand, h]
  · simp [sendCommand, hp, hs]
  · exact ⟨by simp [sendCommand, hp, hs, hw], stringifyVal_no_newline command⟩
  · simp [sendCommand, hp, hs, hw]

/-- Witness for C5 at a concrete idle state and a concrete running
state. -/
theorem c5_witness :
    initialManagerState.process = none ∧
    sendCommand initialManagerState JValue.jnull = (false, [Effect.loggedNotRunning]) ∧
    sendCommand { process := some procOk, messageCallback := none, outputBuffer := [] }
        JValue.jnull
      = (true, [Effect.wroteStdin (stringifyVal JValue.jnull ++ ['\n'])]) :=
  ⟨rfl, (c5_sendCommand_delivery initialManagerState JValue.jnull).1 rfl,
   ((c5_sendCommand_delivery
       { process := some procOk, messageCallback := none, outputBuffer := [] }
       JValue.jnull).2.2.1 procOk rfl rfl rfl).1⟩

/-- C6: a line that fails JSON decoding is dropped with a log-only
diagnostic and never terminates the session or blocks later lines: on the
stream of the object line a, the line NOT-JSON, and the object line b,
the callback is invoked exactly twice, with the two decoded objects in
order; and in general the stdout handler never changes the process handle
or the registered callback. -/
theorem c6_decode_failure_isolated :
    (∀ (p : Proc) (cb : Nat),
      handleStdoutData { process := some p, messageCallback := some cb, outputBuffer := [] }
          c6chunk
        = ({ process := some p, messageCallback := some cb, outputBuffer := [] },
           [Effect.invokedCallback cb c6respA, Effect.loggedParseError c6lineBad,
            Effect.invokedCallback cb c6respB])) ∧
    (∀ (st : ManagerState) (chunk : List Char),
      (handleStdoutData st chunk).1.process = st.process ∧
      (handleStdoutData st chunk).1.messageCallback = st.messageCallback) :=
  ⟨fun _p _cb => rfl, fun _st _chunk => ⟨rfl, rfl⟩⟩

/-- C7: on process termination the supervisor returns to idle — the
process handle is cleared and the output buffer emptied — a user-visible
warning is reported exactly when the exit code is non-zero and non-null,
and a subsequent start spawns a fresh process. -/
theorem c7_close_resets_and_warns (st : ManagerState) (code : Option Int) :
    (handleClose st code).1.process = none ∧
    (handleClose st code).1.outputBuffer = [] ∧
    ((∃ e ∈ (handleClose st code).2, isWarningEffect e = true) ↔
      ∃ n, code = some n ∧ n ≠ 0) ∧
    (∀ (cb : Nat) (cfg : StartConfig), cfg.spawnThrows = false →
      (start (handleClose st code).1 cb cfg).1.process = some cfg.freshProc ∧
      countSpawns (start (handleClose st code).1 cb cfg).2 = 1) := by
  refine ⟨rfl, rfl, ?_, fun cb cfg hs => ?_⟩
  · cases code with
    | none => simp [handleClose, isWarningEffect]
    | some n =>
      by_cases hn : n = 0
      · subst hn
        simp [handleClose, isWarningEffect]
      · simp [handleClose, isWarningEffect, hn]
  · constructor
    · simp only [start]
      rw [show ({ (handleClose st code).1 with messageCallback := some cb } :
          ManagerState).process = (handleClose st code).1.process from rfl]
      rw [show (handleClose st code).1.process = none from rfl]
      simp [hs]
    · simp only [start]
      rw [show ({ (handleClose st code).1 with messageCallback := some cb } :
          ManagerState).process = (handleClose st code).1.process from rfl]
      rw [show (handleClose st code).1.process = none from rfl]
      simp [hs, countSpawns]

/-- Witness for C7 at a running state closed with exit code one, followed
by a start with a concrete configuration. -/
theorem c7_witness :
    cfgA.spawnThrows = false ∧
    (handleClose stWarm (some 1)).1.outputBuffer = [] ∧
    (∃ e ∈ (handleClose stWarm (some 1)).2, isWarningEffect e = true) ∧
    (start (handleClose stWarm (some 1)).1 9 cfgA).1.process = some cfgA.freshProc :=
  ⟨rfl,
   (c7_close_resets_and_warns stWarm (some 1)).2.1,
   (c7_close_resets_and_warns stWarm (some 1)).2.2.1.mpr ⟨1, rfl, by decide⟩,
   ((c7_close_resets_and_warns stWarm (some 1)).2.2.2 9 cfgA rfl).1⟩

/-- C8: dispose is idempotent and total — disposing twice is a no-op the
second time, the process handle is null afterwards, and disposing a
never-started manager does nothing. -/
theorem c8_dispose_idempotent :
    (∀ st : ManagerState,
      dispose (dispose st).1 = ((dispose st).1, []) ∧ (dispose st).1.process = none) ∧
    dispose initialManagerState = (initialManagerState, []) := by
  refine ⟨fun st => ?_, rfl⟩
  cases hp : st.process with
  | none => simp [dispose, hp]
  | some p => simp [dispose, hp]

/-- C9: dispose mutates only the process handle — the output buffer and
the message callback are untouched, so a buffered fragment survives
dispose — while the buffer is cleared only by the close handler or by the
reset in a start from the idle state. -/
theorem c9_dispose_frame_effect :
    (∀ st : ManagerState,
      (dispose st).1.outputBuffer = st.outputBuffer ∧
      (dispose st).1.messageCallback = st.messageCallback ∧
      (dispose st).1.process = none) ∧
    (∀ (st : ManagerState) (code : Option Int),
      (handleClose st code).1.outputBuffer = []) ∧
    (∀ (st : ManagerState) (cb : Nat) (cfg : StartConfig),
      st.process = none → (start st cb cfg).1.outputBuffer = []) := by
  refine ⟨fun st => ?_, fun st code => rfl, fun st cb cfg h => ?_⟩
  · cases hp : st.process with
    | none => simp [dispose, hp]
    | some p => simp [dispose, hp]
  · simp only [start]
    rw [show ({ st with messageCallback := some cb } : ManagerState).process
        = st.process from rfl, h]
    by_cases hs : cfg.spawnThrows <;> simp [hs]

/-- Witness for C9 at a running state with a buffered fragment, and a
start from the idle state. -/
theorem c9_witness :
    (dispose stFrag).1.outputBuffer = ['f'] ∧
    initialManagerState.process = none ∧
    (start initialManagerState 1 cfgB).1.outputBuffer = [] :=
  ⟨(c9_dispose_frame_effect.1 stFrag).1,
   rfl, c9_dispose_frame_effect.2.2 initialManagerState 1 cfgB rfl⟩

/-- C10: getDetails forwards sendCommand's result unchanged on the
command object that always carries the command and name keys and carries
the path key exactly when the path argument is truthy — an omitted, null
or empty-string path yields a wire command with no path key at all. -/
theorem c10_getDetails_path_field (st : ManagerState) (varName : List Char)
    (pathArg : Option (List Char)) :
    getDetails st varName pathArg = sendCommand st (getDetailsCommand varName pathArg) ∧
    objHasKey kwCommand (getDetailsCommand varName pathArg) = true ∧
    objHasKey kwName (getDetailsCommand varName pathArg) = true ∧
    (objHasKey kwPath (getDetailsCommand varName pathArg) = true ↔
      ∃ s, pathArg = some s ∧ s ≠ []) := by
  refine ⟨rfl, ?_, ?_, ?_⟩
  · cases pathArg with
    | none => rfl
    | some s =>
      cases s with
      | nil => rfl
      | cons a t => rfl
  · cases pathArg with
    | none => rfl
    | some s =>
      cases s with
      | nil => rfl
      | cons a t => rfl
  · cases pathArg with
    | none =>
      rw [show objHasKey kwPath (getDetailsCommand varName none) = false from rfl]
      simp
    | some s =>
      cases s with
      | nil =>
        rw [show objHasKey kwPath (getDetailsCommand varName (some [])) = false from rfl]
        simp
      | cons a t =>
        rw [show objHasKey kwPath (getDetailsCommand varName (some (a :: t))) = true from rfl]
        simp

end VariableExplorer
